import Mathlib

/-!
# Verification of the Pear Translate application

Shallow embedding, in Lean 4, of the source of `Sh3y0/pear-translate-app`
(`src/index.js` and the local-file variant in `src/unnamed/part_000`),
together with theorems settling the specification claims about it.

JavaScript objects produced by `JSON.parse` are modelled as insertion-ordered
association lists; `undefined` is modelled by `Option.none`; JS string
truthiness (`undefined` and `""` are falsy) is modelled by `jsTruthy`.
Buffers are modelled at character granularity (UTF-8 encoding being
injective, character-list equality coincides with byte equality).
-/

/-! ## Data model: translation dictionaries -/

/-- A single language's dictionary: a JS object mapping phrase to phrase,
modelled as an insertion-ordered association list. -/
abbrev Dict := List (String × String)

/-- The translations document: a JS object mapping language code to
dictionary, as produced by `JSON.parse` of `translations.json`. -/
abbrev Translations := List (String × Dict)

/-- JS property access `obj[key]` on an object without prototype chain:
the value of the (unique) own property, or `undefined` (`none`). -/
def alookup {β : Type} : List (String × β) → String → Option β
  | [], _ => none
  | (k, v) :: rest, key => if k = key then some v else alookup rest key

/-- JS truthiness of a possibly-absent string value: `undefined` and the
empty string are falsy, every other string is truthy. -/
def jsTruthy : Option String → Bool
  | none => false
  | some s => if s = "" then false else true

/-! ## Text normalization: `text.toLowerCase().trim()` and `split(/\s+/)` -/

/-- Character class of the regular expression `\s`, also the class trimmed
by `String.prototype.trim`. -/
def isWsChar (c : Char) : Bool := c.isWhitespace

/-- Models JS `str.trim()`: strips leading and trailing whitespace. -/
def trimChars (cs : List Char) : List Char :=
  ((cs.dropWhile isWsChar).reverse.dropWhile isWsChar).reverse

/-- Models `text.toLowerCase().trim()` from `translateText` (src/index.js:375). -/
def jsNormalize (text : String) : String :=
  String.mk (trimChars (text.data.map Char.toLower))

mutual

/-- Worker for `jsSplitWs`: splits on maximal whitespace runs, keeping the
empty fields JS `split` produces at the boundaries.  `cur` is the reversed
field being accumulated. -/
def splitWsGo : List Char → List Char → List (List Char)
  | [], cur => [cur.reverse]
  | c :: rest, cur =>
    if isWsChar c then cur.reverse :: splitWsSkip rest
    else splitWsGo rest (c :: cur)

/-- Worker for `jsSplitWs`: inside a whitespace run, waiting for the next
field (a trailing run yields the empty field JS `split` produces). -/
def splitWsSkip : List Char → List (List Char)
  | [] => [[]]
  | c :: rest => if isWsChar c then splitWsSkip rest else splitWsGo rest [c]

end

/-- Models JS `str.split(/\s+/)` (src/index.js:387). -/
def jsSplitWs (s : String) : List String :=
  (splitWsGo s.data []).map (fun cs => String.mk cs)

/-- Models JS `arr.join(" ")` (src/index.js:408). -/
def joinWords : List String → String
  | [] => ""
  | [w] => w
  | w :: ws => w ++ " " ++ joinWords ws

/-! ## Translation logic (`translateText`, src/index.js:363-409; the copy in
src/unnamed/part_000:60-106 is textually identical code) -/

/-- The reverse-lookup-by-value `for (const [key, value] of
Object.entries(sourceDict))` loop (src/index.js:398-402): the first entry
whose value equals the word and whose key has a truthy entry in the target
dictionary yields that target entry. -/
def reverseLoop (targetDict : Dict) (word : String) : List (String × String) → Option String
  | [] => none
  | (key, value) :: rest =>
    if value = word ∧ jsTruthy (alookup targetDict key) then alookup targetDict key
    else reverseLoop targetDict word rest

/-- The body of `words.map((word) => ...)` (src/index.js:388-406). -/
def translateWord (sourceDict targetDict : Dict) (word : String) : String :=
  if jsTruthy (alookup sourceDict word) ∧ jsTruthy (alookup targetDict word) then
    (alookup targetDict word).getD ""
  else
    match reverseLoop targetDict word sourceDict with
    | some t => t
    | none => word

/-- `translateText(translations, text, fromLang, toLang)`
(src/index.js:363-409).  `translations` is `none` when the JS value is
null/undefined; a language missing from the document is an `alookup` miss. -/
def translateText (translations : Option Translations) (text fromLang toLang : String) : String :=
  if fromLang = toLang then text
  else
    match translations with
    | none => "Translation data not available"
    | some t =>
      match alookup t fromLang, alookup t toLang with
      | some sourceDict, some targetDict =>
        let normalizedText := jsNormalize text
        if jsTruthy (alookup sourceDict normalizedText) ∧
            jsTruthy (alookup targetDict normalizedText) then
          (alookup targetDict normalizedText).getD ""
        else
          joinWords ((jsSplitWs normalizedText).map (translateWord sourceDict targetDict))
      | some _, none => "Translation data not available"
      | none, _ => "Translation data not available"

/-! ## Key Validator (spec §4.1) -/

/-- The two rejection reasons of the Key Validator. -/
inductive KeyError where
  | empty
  | malformed
deriving DecidableEq

/-- Hex-digit character class `[0-9a-fA-F]` (spec §6). -/
def isHexDigitCh (c : Char) : Bool :=
  (48 ≤ c.toNat && c.toNat ≤ 57) || (97 ≤ c.toNat && c.toNat ≤ 102) ||
    (65 ≤ c.toNat && c.toNat ≤ 70)

/-- Numeric value of a hex digit (0 on non-digits; only applied to digits). -/
def hexValCh (c : Char) : Nat :=
  if 48 ≤ c.toNat ∧ c.toNat ≤ 57 then c.toNat - 48
  else if 97 ≤ c.toNat ∧ c.toNat ≤ 102 then c.toNat - 87
  else if 65 ≤ c.toNat ∧ c.toNat ≤ 70 then c.toNat - 55
  else 0

/-- Decodes an even-length hex string, two digits per byte. -/
def decodeHexPairs : List Char → List Nat
  | a :: b :: rest => (16 * hexValCh a + hexValCh b) :: decodeHexPairs rest
  | _ => []

/-- Modelled from the spec: the Key Validator operation
`validate(raw: string) -> DriveIdentifier | Error` of spec §4.1 has no
implementation under `src/`.  Per the spec's words: surrounding whitespace
is trimmed; empty or whitespace-only input is rejected as
`InvalidKey: empty`; odd-length or non-hex input is rejected as
`InvalidKey: malformed`; otherwise the trimmed identifier is decoded to
canonical binary form.  A pure function with no side effects. -/
def validate (raw : String) : Except KeyError (List Nat) :=
  let t := trimChars raw.data
  if t = [] then Except.error KeyError.empty
  else if t.length % 2 = 1 ∨ t.any (fun c => !(isHexDigitCh c)) then
    Except.error KeyError.malformed
  else Except.ok (decodeHexPairs t)

/-! ## Mirror Synchronizer debounce latch (spec §4.6, §9) -/

/-- Debouncer state: whether a mirror pass is in flight, whether a follow-up
pass is latched, and how many passes have been started so far. -/
structure SyncState where
  running : Bool
  pending : Bool
  started : Nat
deriving DecidableEq

/-- The two events the debouncer reacts to: a change-notification trigger,
and completion of the in-flight pass. -/
inductive SyncEvent where
  | trigger
  | complete
deriving DecidableEq

/-- Modelled from the spec: the Mirror Synchronizer's coalescing policy
(spec §4.6) has no implementation under `src/`.  Per the spec's §9 note: a
single-slot pending flag plus a running flag; a trigger while idle starts a
pass immediately; a trigger while running sets the pending flag; pass
completion checks the pending flag and, if set, clears it and starts
exactly one more pass. -/
def syncStep (s : SyncState) : SyncEvent → SyncState
  | SyncEvent.trigger =>
    if s.running then { s with pending := true }
    else { running := true, pending := false, started := s.started + 1 }
  | SyncEvent.complete =>
    if s.pending then { running := true, pending := false, started := s.started + 1 }
    else { s with running := false }

/-- Folds a sequence of debouncer events over a state. -/
def runEvents (s : SyncState) (es : List SyncEvent) : SyncState := es.foldl syncStep s

/-! ## Module Availability Probe (`loadHyperdriveModules` /
`initializeHyperdrive`, src/index.js:40-198) -/

/-- The module-level mutable bindings of src/index.js:24-29, with each
module/handle binding modelled by whether it is non-null. -/
structure ModState where
  Hyperdrive : Bool
  Corestore : Bool
  b4a : Bool
  hyperdriveInitialized : Bool
  store : Bool
  drive : Bool
deriving DecidableEq

/-- Which of the three dynamic imports a call actually attempted — the
observable call-count on the underlying acquisition primitive. -/
structure ImportLog where
  hyperdriveAttempted : Bool
  corestoreAttempted : Bool
  b4aAttempted : Bool
deriving DecidableEq

/-- No import attempted. -/
def noImports : ImportLog := ⟨false, false, false⟩

/-- All three imports attempted. -/
def allImports : ImportLog := ⟨true, true, true⟩

/-- Environment of a probe call: whether each dynamic import would succeed. -/
structure ImportEnv where
  hyperdriveOk : Bool
  corestoreOk : Bool
  b4aOk : Bool
deriving DecidableEq

/-- `loadHyperdriveModules` (src/index.js:40-108): early-returns `true` on
cached modules and `false` after a recorded failed attempt; otherwise
attempts all three imports via `Promise.all`, each with its own `.catch`
(so an individual failure is logged, never thrown, and does not stop the
others); assigns the module bindings only when all three loaded.  Returns
the result, the updated bindings, and which imports were attempted. -/
def loadHyperdriveModules (st : ModState) (env : ImportEnv) :
    Bool × ModState × ImportLog :=
  if st.Hyperdrive ∧ st.Corestore ∧ st.b4a then (true, st, noImports)
  else if st.hyperdriveInitialized ∧ ¬st.Hyperdrive then (false, st, noImports)
  else if env.hyperdriveOk ∧ env.corestoreOk ∧ env.b4aOk then
    (true, { st with Hyperdrive := true, Corestore := true, b4a := true }, allImports)
  else (false, st, allImports)

/-- How far the `new Corestore` / `new Hyperdrive` / `drive.ready()`
sequence of src/index.js:163-170 gets before throwing, if at all. -/
inductive InitOutcome where
  | corestoreThrows
  | hyperdriveThrows
  | readyThrows
  | ok
deriving DecidableEq

/-- `initializeHyperdrive` (src/index.js:117-198): memoized on
`hyperdriveInitialized` (returns `drive !== null` without touching modules
or constructors); otherwise loads modules, resolves Pear storage (the three
storage probes collapsed into availability), constructs the store and
drive, and records the outcome.  The trailing `Bool` reports whether the
constructor sequence was attempted. -/
def initializeHyperdrive (st : ModState) (env : ImportEnv) (storage : Bool)
    (outcome : InitOutcome) : Bool × ModState × ImportLog × Bool :=
  if st.hyperdriveInitialized then (st.drive, st, noImports, false)
  else
    match loadHyperdriveModules st env with
    | (mok, st1, log) =>
      if ¬mok then (false, { st1 with hyperdriveInitialized := true }, log, false)
      else if storage then
        match outcome with
        | InitOutcome.corestoreThrows =>
          (false, { st1 with hyperdriveInitialized := true }, log, true)
        | InitOutcome.hyperdriveThrows =>
          (false, { st1 with store := true, hyperdriveInitialized := true }, log, true)
        | InitOutcome.readyThrows =>
          (false, { st1 with store := true, drive := true, hyperdriveInitialized := true }, log, true)
        | InitOutcome.ok =>
          (true, { st1 with store := true, drive := true, hyperdriveInitialized := true }, log, true)
      else (false, { st1 with hyperdriveInitialized := true }, log, false)

/-! ## JSON codec: `JSON.stringify(value, null, 2)` and `JSON.parse` for
translations documents (src/index.js:249 and src/index.js:313) -/

/-- Lowercase hex digit character for `n < 16`. -/
def hexDigitChar (n : Nat) : Char :=
  if n < 10 then Char.ofNat (48 + n) else Char.ofNat (87 + n)

/-- `JSON.stringify`'s escaping of one string character: quote and
backslash escapes, the short control escapes, `\u00xx` for the remaining
control characters, and every other character verbatim. -/
def escChar (c : Char) : List Char :=
  if c = '\"' then ['\\', '\"']
  else if c = '\\' then ['\\', '\\']
  else if c = Char.ofNat 8 then ['\\', 'b']
  else if c = '\t' then ['\\', 't']
  else if c = '\n' then ['\\', 'n']
  else if c = Char.ofNat 12 then ['\\', 'f']
  else if c = '\r' then ['\\', 'r']
  else if c.toNat < 32 then
    ['\\', 'u', '0', '0', hexDigitChar (c.toNat / 16), hexDigitChar (c.toNat % 16)]
  else [c]

/-- A JSON string literal for `s`: quote, escaped body, quote. -/
def encStr (s : String) : List Char := '\"' :: (s.data.flatMap escChar ++ ['\"'])

/-- Two-space and four-space indents of `JSON.stringify(·, null, 2)`. -/
def sp2 : List Char := [' ', ' ']

/-- See `sp2`. -/
def sp4 : List Char := [' ', ' ', ' ', ' ']

/-- One `"key": "value"` line of an inner (per-language) object. -/
def innerEntryChars (p : String × String) : List Char :=
  sp4 ++ (encStr p.1 ++ (':' :: ' ' :: encStr p.2))

/-- The `",\n"`-joined entry lines of an inner object. -/
def innerEntriesChars : List (String × String) → List Char
  | [] => []
  | [p] => innerEntryChars p
  | p :: ps => innerEntryChars p ++ (',' :: '\n' :: innerEntriesChars ps)

/-- `JSON.stringify(dict, null, 2)` as it appears nested at depth one. -/
def stringifyInner (d : Dict) : List Char :=
  match d with
  | [] => ['{', '}']
  | _ => '{' :: '\n' :: (innerEntriesChars d ++ ('\n' :: sp2 ++ ['}']))

/-- One `"lang": {...}` line of the top-level object. -/
def docEntryChars (p : String × Dict) : List Char :=
  sp2 ++ (encStr p.1 ++ (':' :: ' ' :: stringifyInner p.2))

/-- The `",\n"`-joined entry lines of the top-level object. -/
def docEntriesChars : Translations → List Char
  | [] => []
  | [p] => docEntryChars p
  | p :: ps => docEntryChars p ++ (',' :: '\n' :: docEntriesChars ps)

/-- `JSON.stringify(translationsData, null, 2)` (src/index.js:249). -/
def stringifyDoc (t : Translations) : List Char :=
  match t with
  | [] => ['{', '}']
  | _ => '{' :: '\n' :: (docEntriesChars t ++ ['\n', '}'])

/-- JSON's insignificant whitespace characters. -/
def isJsonWs (c : Char) : Bool := c = ' ' || c = '\t' || c = '\n' || c = '\r'

/-- Skip insignificant whitespace. -/
def skipWs (cs : List Char) : List Char := cs.dropWhile isJsonWs

/-- Value of one hex digit in a `\uXXXX` escape. -/
def jsonHexVal (c : Char) : Option Nat :=
  if 48 ≤ c.toNat ∧ c.toNat ≤ 57 then some (c.toNat - 48)
  else if 97 ≤ c.toNat ∧ c.toNat ≤ 102 then some (c.toNat - 87)
  else if 65 ≤ c.toNat ∧ c.toNat ≤ 70 then some (c.toNat - 55)
  else none

/-- Prepend a decoded character to a string-body parse result. -/
def consFst (c : Char) (o : Option (List Char × List Char)) :
    Option (List Char × List Char) :=
  o.map (fun p => (c :: p.1, p.2))

/-- Parses a JSON string body after the opening quote: the decoded
characters and the input remaining after the closing quote. -/
def parseStrBody : List Char → Option (List Char × List Char)
  | [] => none
  | c :: rest =>
    if c = '\"' then some ([], rest)
    else if c = '\\' then
      match rest with
      | [] => none
      | e :: r1 =>
        if e = '\"' then consFst '\"' (parseStrBody r1)
        else if e = '\\' then consFst '\\' (parseStrBody r1)
        else if e = '/' then consFst '/' (parseStrBody r1)
        else if e = 'b' then consFst (Char.ofNat 8) (parseStrBody r1)
        else if e = 'f' then consFst (Char.ofNat 12) (parseStrBody r1)
        else if e = 'n' then consFst '\n' (parseStrBody r1)
        else if e = 'r' then consFst '\r' (parseStrBody r1)
        else if e = 't' then consFst '\t' (parseStrBody r1)
        else if e = 'u' then
          match r1 with
          | a :: b :: c2 :: d :: r2 =>
            match jsonHexVal a, jsonHexVal b, jsonHexVal c2, jsonHexVal d with
            | some x, some y, some z, some w =>
              consFst (Char.ofNat (4096 * x + 256 * y + 16 * z + w)) (parseStrBody r2)
            | _, _, _, _ => none
          | _ => none
        else none
    else consFst c (parseStrBody rest)

/-- Parses a JSON string literal including its opening quote. -/
def parseJString : List Char → Option (List Char × List Char)
  | [] => none
  | c :: rest => if c = '\"' then parseStrBody rest else none

/-- Parses the `"key": "value"` entries of an inner object, positioned
after the opening brace; fueled by an upper bound on the entry count. -/
def parseInnerEntries : Nat → List Char → Option (Dict × List Char)
  | 0, _ => none
  | fuel + 1, cs =>
    match parseJString (skipWs cs) with
    | none => none
    | some (k, r1) =>
      match skipWs r1 with
      | [] => none
      | c1 :: r2 =>
        if c1 = ':' then
          match parseJString (skipWs r2) with
          | none => none
          | some (v, r3) =>
            match skipWs r3 with
            | [] => none
            | c3 :: r4 =>
              if c3 = ',' then
                match parseInnerEntries fuel r4 with
                | some (d, r5) => some ((String.mk k, String.mk v) :: d, r5)
                | none => none
              else if c3 = '}' then some ([(String.mk k, String.mk v)], r4)
              else none
        else none

/-- Parses an inner object `{"key": "value", ...}`. -/
def parseInner (cs : List Char) : Option (Dict × List Char) :=
  match skipWs cs with
  | [] => none
  | c :: r =>
    if c = '{' then
      match skipWs r with
      | [] => none
      | c2 :: r2 => if c2 = '}' then some ([], r2) else parseInnerEntries (r.length + 1) r
    else none

/-- Parses the `"lang": {...}` entries of the top-level object. -/
def parseDocEntries : Nat → List Char → Option (Translations × List Char)
  | 0, _ => none
  | fuel + 1, cs =>
    match parseJString (skipWs cs) with
    | none => none
    | some (k, r1) =>
      match skipWs r1 with
      | [] => none
      | c1 :: r2 =>
        if c1 = ':' then
          match parseInner r2 with
          | none => none
          | some (d, r3) =>
            match skipWs r3 with
            | [] => none
            | c3 :: r4 =>
              if c3 = ',' then
                match parseDocEntries fuel r4 with
                | some (t, r5) => some ((String.mk k, d) :: t, r5)
                | none => none
              else if c3 = '}' then some ([(String.mk k, d)], r4)
              else none
        else none

/-- Parses the top-level object of a translations document. -/
def parseDocTop (cs : List Char) : Option (Translations × List Char) :=
  match skipWs cs with
  | [] => none
  | c :: r =>
    if c = '{' then
      match skipWs r with
      | [] => none
      | c2 :: r2 => if c2 = '}' then some ([], r2) else parseDocEntries (r.length + 1) r
    else none

/-- `JSON.parse` of a translations document (src/index.js:313): the parsed
document when the input is a translations object followed only by
whitespace, `none` (a thrown `SyntaxError`) otherwise. -/
def parseTranslationsChars (cs : List Char) : Option Translations :=
  match parseDocTop cs with
  | some (t, rest) => if skipWs rest = [] then some t else none
  | none => none

/-! ## Drive storage and the data pipelines
(`loadTranslationsIntoDrive` / `getTranslationsFromDrive`,
src/index.js:218-341) -/

/-- The Hyperdrive content tree: path to stored buffer, buffers modelled at
character granularity (UTF-8 being injective). -/
abbrev DriveStore := List (String × List Char)

/-- `drive.put(path, buffer)` (src/index.js:254). -/
def drivePut (d : DriveStore) (path : String) (content : List Char) : DriveStore :=
  (path, content) :: d

/-- `drive.get(path)` (src/index.js:303): the stored buffer or null. -/
def driveGet (d : DriveStore) (path : String) : Option (List Char) := alookup d path

/-- The write pipeline of `loadTranslationsIntoDrive`
(src/index.js:249-254): `JSON.stringify(translationsData, null, 2)`,
`b4a.from(·, "utf-8")`, `drive.put("translations.json", ·)`. -/
def writeTranslations (d : DriveStore) (t : Translations) : DriveStore :=
  drivePut d "translations.json" (stringifyDoc t)

/-- The read pipeline of `getTranslationsFromDrive` (src/index.js:303-313):
`drive.get("translations.json")`, `b4a.toString(·, "utf-8")`,
`JSON.parse`. -/
def readTranslations (d : DriveStore) : Option Translations :=
  match driveGet d "translations.json" with
  | some buf => parseTranslationsChars buf
  | none => none

/-- How the `drive.ready()` / `drive.get("translations.json")` sequence of
src/index.js:299-303 behaves: throws, yields null (path absent), or yields
a stored buffer. -/
inductive DriveGetOutcome where
  | getThrows
  | notFound
  | found (content : List Char)
deriving DecidableEq

/-- `getTranslationsFromDrive` (src/index.js:291-341): initializes
Hyperdrive, and if it is available with a non-null drive, tries the drive
read path (a null buffer or a throw, including a `JSON.parse` failure,
falls through); otherwise or on fall-through fetches the local
`./translations.json`, whose result is `localFile`.  Returns the
translations (null when even the local read fails), the data-source status
set by `updateDataSource`, and the module state. -/
def getTranslationsFromDrive (st : ModState) (env : ImportEnv) (storage : Bool)
    (outcome : InitOutcome) (dget : DriveGetOutcome) (localFile : Option Translations) :
    Option Translations × String × ModState :=
  match initializeHyperdrive st env storage outcome with
  | (avail, st1, _, _) =>
    let fallback : Option Translations × String × ModState :=
      match localFile with
      | some t => (some t, "Data source: Local file (fallback)", st1)
      | none => (none, "Data source: Error loading data", st1)
    if avail ∧ st1.drive then
      match dget with
      | DriveGetOutcome.found content =>
        match parseTranslationsChars content with
        | some t => (some t, "Data source: Hyperdrive (P2P)", st1)
        | none => fallback
      | DriveGetOutcome.notFound => fallback
      | DriveGetOutcome.getThrows => fallback
    else fallback

/-! ## Theorems -/

/-- A whitespace-free character list is split into the single field it is. -/
theorem splitWsGo_no_ws : ∀ (cs acc : List Char), (∀ c ∈ cs, isWsChar c = false) →
    splitWsGo cs acc = [acc.reverse ++ cs]
  | [], acc, _ => by simp [splitWsGo]
  | c :: rest, acc, h => by
    have hc : isWsChar c = false := h c (List.mem_cons_self c rest)
    simp only [splitWsGo, hc, Bool.false_eq_true, if_false]
    rw [splitWsGo_no_ws rest (c :: acc) (fun x hx => h x (List.mem_cons_of_mem c hx))]
    simp

/-- `split(/\s+/)` on a whitespace-free string yields that string alone. -/
theorem jsSplitWs_no_ws (w : String) (h : ∀ c ∈ w.data, isWsChar c = false) :
    jsSplitWs w = [w] := by
  unfold jsSplitWs
  rw [splitWsGo_no_ws w.data [] h]
  simp

/-- The reverse-lookup loop misses when no entry's value equals the word. -/
theorem reverseLoop_none (tgt : Dict) (w : String) :
    ∀ src : List (String × String), (∀ p ∈ src, p.2 ≠ w) → reverseLoop tgt w src = none
  | [], _ => rfl
  | (k, v) :: rest, h => by
    have hv : v ≠ w := h (k, v) (List.mem_cons_self _ _)
    simp only [reverseLoop]
    rw [if_neg (fun hcon => hv hcon.1)]
    exact reverseLoop_none tgt w rest (fun p hp => h p (List.mem_cons_of_mem _ hp))

/-- A word that is neither a key nor a value of the source dictionary is
mapped to itself by the word-by-word pass. -/
theorem translateWord_passthrough (src tgt : Dict) (w : String)
    (hkey : alookup src w = none) (hval : ∀ p ∈ src, p.2 ≠ w) :
    translateWord src tgt w = w := by
  unfold translateWord
  rw [hkey]
  rw [if_neg (by simp [jsTruthy])]
  rw [reverseLoop_none tgt w src hval]

/-- The reverse-lookup loop agrees with first-match search among entries
whose value equals the word and whose key has a truthy target entry. -/
theorem reverseLoop_eq_find (tgt : Dict) (w : String) :
    ∀ src : List (String × String),
      reverseLoop tgt w src =
        match src.find? (fun p => decide (p.2 = w) && jsTruthy (alookup tgt p.1)) with
        | some p => alookup tgt p.1
        | none => none
  | [] => rfl
  | (k, v) :: rest => by
    by_cases hcond : v = w ∧ jsTruthy (alookup tgt k)
    · simp only [reverseLoop, if_pos hcond, List.find?]
      have : (decide (v = w) && jsTruthy (alookup tgt k)) = true := by
        simp [hcond.1, hcond.2]
      simp [this]
    · simp only [reverseLoop, if_neg hcond, List.find?]
      have : (decide (v = w) && jsTruthy (alookup tgt k)) = false := by
        rcases Decidable.not_and_iff_or_not.mp hcond with h | h
        · simp [h]
        · simp [Bool.eq_false_iff.mpr h]
      simp only [this, Bool.false_eq_true, if_false]
      exact reverseLoop_eq_find tgt w rest

/-- C8: for the dictionary `{en: {hello: "hello"}, es: {hello: "hola"}}`,
`translateText` on the mixed-case input `"Hello"` from `en` to `es`
normalizes to `"hello"` and returns `"hola"`. -/
theorem C8_scenario_hello_hola :
    translateText (some [("en", [("hello", "hello")]), ("es", [("hello", "hola")])])
      "Hello" "en" "es" = "hola" ∧
    jsNormalize "Hello" = "hello" := by
  constructor <;> decide

/-- C10: with equal source and target language codes, `translateText`
returns the input text verbatim, for every translations value (including
`none` and documents missing language entries) — the same-language check
short-circuits before availability checks, normalization, and lookups. -/
theorem C10_same_language_identity
    (translations : Option Translations) (text lang : String) :
    translateText translations text lang lang = text := by
  simp [translateText]

/-- C9: a single word (whitespace-free after normalization) that is neither
a key nor a value of the source-language dictionary passes through
`translateText` unchanged when source and target languages are distinct and
both dictionaries are present — and in particular no error is returned. -/
theorem C9_unknown_word_passthrough
    (t : Translations) (text fromLang toLang w : String) (src tgt : Dict)
    (hfl : fromLang ≠ toLang)
    (hsrc : alookup t fromLang = some src)
    (htgt : alookup t toLang = some tgt)
    (hnorm : jsNormalize text = w)
    (hnws : ∀ c ∈ w.data, isWsChar c = false)
    (hkey : alookup src w = none)
    (hval : ∀ p ∈ src, p.2 ≠ w) :
    translateText (some t) text fromLang toLang = w := by
  simp only [translateText, if_neg hfl, hsrc, htgt, hnorm, hkey]
  rw [if_neg (by simp [jsTruthy])]
  rw [jsSplitWs_no_ws w hnws]
  simp only [List.map_cons, List.map_nil]
  rw [translateWord_passthrough src tgt w hkey hval]
  rfl

/-- C9 witness: the word `"zzz"` (input `" ZZZ "`, normalized to `"zzz"`) is
neither a key nor a value of the English dictionary and passes through. -/
theorem C9_unknown_word_passthrough_witness :
    translateText (some [("en", [("hello", "hola")]), ("es", [("hello", "hola")])])
      " ZZZ " "en" "es" = "zzz" :=
  C9_unknown_word_passthrough
    [("en", [("hello", "hola")]), ("es", [("hello", "hola")])]
    " ZZZ " "en" "es" "zzz" [("hello", "hola")] [("hello", "hola")]
    (by decide) (by decide) (by decide) (by decide) (by decide) (by decide)
    (by decide)

/-- C7 counterexample: for the dictionary
`{en: {a: "x", b: "x"}, es: {b: "y"}}` and the word `"x"` (not a key of
`en`), the first entry of `en` in iteration order whose value equals `"x"`
is `("a", "x")`, yet the target dictionary's value for `"a"` is not the
returned translation: the code skips entry `a` (no truthy target value) and
returns `es["b"] = "y"`, refuting the claim that the fallback returns the
target value of the first entry whose value equals the word. -/
theorem C7_counterexample :
    ¬ (List.find? (fun q => decide (q.2 = "x")) [("a", "x"), ("b", "x")] = some ("a", "x") →
       alookup [("b", "y")] "a" =
         some (translateText
           (some [("en", [("a", "x"), ("b", "x")]), ("es", [("b", "y")])])
           "x" "en" "es")) := by
  decide

/-- C7 (amended): `translateText` prefers an exact-phrase match — if the
normalized input has truthy entries in both dictionaries, the target
dictionary's phrase value is returned and no word-by-word pass runs — and
in the word-by-word pass, a word without truthy entries in both
dictionaries is translated to the target value of the first entry in the
source dictionary's iteration order whose value equals the word **and**
whose key has a truthy entry in the target dictionary, the word itself when
no such entry exists. -/
theorem C7_phrase_preference_and_first_match :
    (∀ (t : Translations) (text fromLang toLang : String) (src tgt : Dict),
      fromLang ≠ toLang →
      alookup t fromLang = some src →
      alookup t toLang = some tgt →
      jsTruthy (alookup src (jsNormalize text)) = true →
      jsTruthy (alookup tgt (jsNormalize text)) = true →
      translateText (some t) text fromLang toLang =
        (alookup tgt (jsNormalize text)).getD "") ∧
    (∀ (src tgt : Dict) (w : String),
      ¬(jsTruthy (alookup src w) = true ∧ jsTruthy (alookup tgt w) = true) →
      translateWord src tgt w =
        match src.find? (fun p => decide (p.2 = w) && jsTruthy (alookup tgt p.1)) with
        | some p => (alookup tgt p.1).getD w
        | none => w) := by
  constructor
  · intro t text fromLang toLang src tgt hfl hsrc htgt hs ht
    simp only [translateText, if_neg hfl, hsrc, htgt]
    rw [if_pos ⟨hs, ht⟩]
  · intro src tgt w hno
    unfold translateWord
    rw [if_neg hno, reverseLoop_eq_find tgt w src]
    cases hfind : src.find? (fun p => decide (p.2 = w) && jsTruthy (alookup tgt p.1)) with
    | none => rfl
    | some p =>
      have hp := List.find?_some hfind
      have htr : jsTruthy (alookup tgt p.1) = true := by
        rcases Bool.and_eq_true _ _ |>.mp hp with ⟨_, h2⟩
        exact h2
      cases halk : alookup tgt p.1 with
      | none => rw [halk] at htr; simp [jsTruthy] at htr
      | some s => simp [halk]

/-- C7 amended-claim witness: phrase preference on the `hello`/`hola`
dictionary, and first-match-with-truthy-target on a concrete reverse
lookup. -/
theorem C7_phrase_preference_and_first_match_witness :
    translateText (some [("en", [("good morning", "good morning")]),
        ("es", [("good morning", "buenos dias")])])
      "Good Morning" "en" "es" = "buenos dias" ∧
    translateWord [("a", "x"), ("b", "x")] [("b", "y")] "x" = "y" := by
  constructor
  · exact C7_phrase_preference_and_first_match.1
      [("en", [("good morning", "good morning")]),
        ("es", [("good morning", "buenos dias")])]
      "Good Morning" "en" "es"
      [("good morning", "good morning")] [("good morning", "buenos dias")]
      (by decide) (by decide) (by decide) (by decide) (by decide)
  · have h := C7_phrase_preference_and_first_match.2
      [("a", "x"), ("b", "x")] [("b", "y")] "x" (by decide)
    rw [h]
    decide

/-- A decoded byte list is half as long as its hex source. -/
theorem decodeHexPairs_length : ∀ cs : List Char,
    (decodeHexPairs cs).length = cs.length / 2
  | [] => by simp [decodeHexPairs]
  | [_] => by simp [decodeHexPairs]
  | _ :: _ :: rest => by
    simp only [decodeHexPairs, List.length_cons]
    rw [decodeHexPairs_length rest]
    omega

/-- A hex digit decodes below 16. -/
theorem hexValCh_lt (c : Char) : hexValCh c < 16 := by
  unfold hexValCh
  split_ifs <;> omega

/-- Every decoded byte is a byte. -/
theorem decodeHexPairs_lt : ∀ cs : List Char, ∀ b ∈ decodeHexPairs cs, b < 256
  | [] => by simp [decodeHexPairs]
  | [_] => by simp [decodeHexPairs]
  | a :: b :: rest => by
    intro x hx
    rcases List.mem_cons.mp hx with h | h
    · have ha := hexValCh_lt a
      have hb := hexValCh_lt b
      omega
    · exact decodeHexPairs_lt rest x h

/-- C1: the Key Validator rejects empty or whitespace-only input as
`InvalidKey: empty`; rejects odd-length or non-hex input as
`InvalidKey: malformed`; and accepts every valid even-length hex string,
returning the whitespace-trimmed identifier decoded to canonical binary
form (bytes, two hex digits each).  It is a pure function by
construction. -/
theorem C1_key_validator :
    (∀ raw : String, trimChars raw.data = [] →
      validate raw = Except.error KeyError.empty) ∧
    (∀ raw : String, trimChars raw.data ≠ [] →
      ((trimChars raw.data).length % 2 = 1 ∨
        ∃ c ∈ trimChars raw.data, isHexDigitCh c = false) →
      validate raw = Except.error KeyError.malformed) ∧
    (∀ raw : String, trimChars raw.data ≠ [] →
      (trimChars raw.data).length % 2 = 0 →
      (∀ c ∈ trimChars raw.data, isHexDigitCh c = true) →
      validate raw = Except.ok (decodeHexPairs (trimChars raw.data)) ∧
      (decodeHexPairs (trimChars raw.data)).length = (trimChars raw.data).length / 2 ∧
      ∀ b ∈ decodeHexPairs (trimChars raw.data), b < 256) := by
  refine ⟨fun raw h => by simp [validate, h], fun raw h hmal => ?_, fun raw h hev hhex => ?_⟩
  · unfold validate
    rw [if_neg h, if_pos]
    rcases hmal with hodd | ⟨c, hc, hcf⟩
    · exact Or.inl hodd
    · refine Or.inr ?_
      simp only [List.any_eq_true]
      exact ⟨c, hc, by simp [hcf]⟩
  · unfold validate
    rw [if_neg h, if_neg]
    · exact ⟨rfl, decodeHexPairs_length _, decodeHexPairs_lt _⟩
    · rintro (hodd | hany)
      · omega
      · simp only [List.any_eq_true] at hany
        rcases hany with ⟨c, hc, hcf⟩
        rw [hhex c hc] at hcf
        simp at hcf

/-- C1 witness: whitespace-only input, odd-length input, and the valid
`"deadbeef"` key (with surrounding whitespace) at concrete values. -/
theorem C1_key_validator_witness :
    validate "   " = Except.error KeyError.empty ∧
    validate "deadbee" = Except.error KeyError.malformed ∧
    validate " deadbeef " = Except.ok [222, 173, 190, 239] := by
  refine ⟨C1_key_validator.1 "   " (by decide),
    C1_key_validator.2.1 "deadbee" (by decide) (Or.inl (by decide)), ?_⟩
  exact (C1_key_validator.2.2 " deadbeef " (by decide) (by decide)
    (by decide)).1.trans (congrArg Except.ok (by decide))

/-- While a pass is running, triggers only latch the pending flag. -/
theorem runEvents_triggers_running (s : SyncState) (hr : s.running = true) :
    ∀ N : Nat, runEvents s (List.replicate N SyncEvent.trigger) =
      if N = 0 then s else { s with pending := true }
  | 0 => by simp [runEvents]
  | N + 1 => by
    rw [List.replicate_succ]
    have hstep : syncStep s SyncEvent.trigger = { s with pending := true } := by
      simp [syncStep, hr]
    have hrec := runEvents_triggers_running { s with pending := true } hr N
    simp only [runEvents, List.foldl_cons, hstep]
    rw [show ({ s with pending := true } : SyncState).started = s.started from rfl] at hrec
    cases N with
    | zero => simp [runEvents]
    | succ M => simpa using hrec

/-- C2: debounce correctness of the Mirror Synchronizer latch.  From a
state with one pass in flight (`running`, no pending latch, `k` passes
started), any `N ≥ 1` change triggers start no new pass and collapse into
the single pending latch; the in-flight pass's completion then starts
exactly one follow-up pass (`k + 1` passes started, still exactly one
running); and the follow-up's own completion starts no further pass.  At
most one pass runs at a time by construction of the single `running`
flag. -/
theorem C2_debounce (k N : Nat) (h : 1 ≤ N) :
    runEvents { running := true, pending := false, started := k }
        (List.replicate N SyncEvent.trigger) =
      { running := true, pending := true, started := k } ∧
    syncStep { running := true, pending := true, started := k } SyncEvent.complete =
      { running := true, pending := false, started := k + 1 } ∧
    syncStep { running := true, pending := false, started := k + 1 } SyncEvent.complete =
      { running := false, pending := false, started := k + 1 } := by
  refine ⟨?_, by simp [syncStep], by simp [syncStep]⟩
  rw [runEvents_triggers_running _ rfl N, if_neg (by omega)]

/-- C2 witness: three rapid triggers during an in-flight pass produce
exactly one follow-up pass. -/
theorem C2_debounce_witness :
    runEvents { running := true, pending := false, started := 0 }
        (List.replicate 3 SyncEvent.trigger) =
      { running := true, pending := true, started := 0 } ∧
    syncStep { running := true, pending := true, started := 0 } SyncEvent.complete =
      { running := true, pending := false, started := 1 } ∧
    syncStep { running := true, pending := false, started := 1 } SyncEvent.complete =
      { running := false, pending := false, started := 1 } :=
  C2_debounce 0 3 (by omega)

/-- C3: memoization of the module availability probe.  Once
`initializeHyperdrive` has recorded an outcome (`hyperdriveInitialized`
set), every later call returns the cached outcome (`drive !== null`)
with no import attempted and no constructor run, and the state unchanged;
`loadHyperdriveModules` after a recorded failed attempt returns `false`
with no import attempted, and with all three modules cached returns `true`
with no import attempted. -/
theorem C3_probe_memoization :
    (∀ (st : ModState) (env : ImportEnv) (storage : Bool) (outcome : InitOutcome),
      st.hyperdriveInitialized = true →
      initializeHyperdrive st env storage outcome = (st.drive, st, noImports, false)) ∧
    (∀ (st : ModState) (env : ImportEnv),
      st.hyperdriveInitialized = true → st.Hyperdrive = false →
      loadHyperdriveModules st env = (false, st, noImports)) ∧
    (∀ (st : ModState) (env : ImportEnv),
      st.Hyperdrive = true → st.Corestore = true → st.b4a = true →
      loadHyperdriveModules st env = (true, st, noImports)) := by
  refine ⟨fun st env storage outcome h => by simp [initializeHyperdrive, h],
    fun st env h1 h2 => ?_, fun st env h1 h2 h3 => by simp [loadHyperdriveModules, h1, h2, h3]⟩
  unfold loadHyperdriveModules
  rw [if_neg (by simp [h2]), if_pos (by simp [h1, h2])]

/-- C3 witness: a state with a recorded failed attempt short-circuits both
functions, and a fully-cached state short-circuits the loader, even in an
environment where imports would now succeed. -/
theorem C3_probe_memoization_witness :
    initializeHyperdrive ⟨false, false, false, true, false, false⟩ ⟨true, true, true⟩
        true InitOutcome.ok =
      (false, ⟨false, false, false, true, false, false⟩, noImports, false) ∧
    loadHyperdriveModules ⟨false, false, false, true, false, false⟩ ⟨true, true, true⟩ =
      (false, ⟨false, false, false, true, false, false⟩, noImports) ∧
    loadHyperdriveModules ⟨true, true, true, false, false, false⟩ ⟨false, false, false⟩ =
      (true, ⟨true, true, true, false, false, false⟩, noImports) :=
  ⟨C3_probe_memoization.1 _ _ _ _ rfl, C3_probe_memoization.2.1 _ _ rfl rfl,
    C3_probe_memoization.2.2 _ _ rfl rfl rfl⟩

/-- C6: on a fresh (non-memoized) call, `loadHyperdriveModules` attempts
all three imports — drive engine, block-store engine, binary-codec helper —
independently of each other's failures (no short-circuit), and the overall
result is `false` exactly when any of the three is missing: it is the
conjunction of the three availabilities.  Failures are absorbed into the
returned value, never thrown: the function is total by construction. -/
theorem C6_probe_attempts_all (st : ModState) (env : ImportEnv)
    (h1 : ¬(st.Hyperdrive = true ∧ st.Corestore = true ∧ st.b4a = true))
    (h2 : ¬(st.hyperdriveInitialized = true ∧ st.Hyperdrive = false)) :
    (loadHyperdriveModules st env).2.2 = allImports ∧
    (loadHyperdriveModules st env).1 =
      (env.hyperdriveOk && env.corestoreOk && env.b4aOk) := by
  unfold loadHyperdriveModules
  rw [if_neg (by simpa using h1), if_neg (by simpa using h2)]
  by_cases h : env.hyperdriveOk = true ∧ env.corestoreOk = true ∧ env.b4aOk = true
  · rw [if_pos h]
    simp [h.1, h.2.1, h.2.2]
  · rw [if_neg h]
    constructor
    · rfl
    · rcases Decidable.not_and_iff_or_not.mp h with hh | hcb
      · simp [Bool.eq_false_iff.mpr hh]
      · rcases Decidable.not_and_iff_or_not.mp hcb with hc | hb
        · simp [Bool.eq_false_iff.mpr hc]
        · simp [Bool.eq_false_iff.mpr hb]

/-- C4: when the drive read path yields no content (`NotFound` null buffer)
or throws, `getTranslationsFromDrive` propagates no error: it falls back to
the local `./translations.json`, sets the data-source status to the
local-fallback indication on success, and returns null only when the local
fallback read also fails (with the error status) — for every module state
and initialization outcome. -/
theorem C4_fallback_on_absence (st : ModState) (env : ImportEnv) (storage : Bool)
    (outcome : InitOutcome) (dget : DriveGetOutcome) (localFile : Option Translations)
    (h : dget = DriveGetOutcome.notFound ∨ dget = DriveGetOutcome.getThrows) :
    (∀ t, localFile = some t →
      (getTranslationsFromDrive st env storage outcome dget localFile).1 = some t ∧
      (getTranslationsFromDrive st env storage outcome dget localFile).2.1 =
        "Data source: Local file (fallback)") ∧
    (localFile = none →
      (getTranslationsFromDrive st env storage outcome dget localFile).1 = none ∧
      (getTranslationsFromDrive st env storage outcome dget localFile).2.1 =
        "Data source: Error loading data") ∧
    ((getTranslationsFromDrive st env storage outcome dget localFile).1 = none ↔
      localFile = none) := by
  unfold getTranslationsFromDrive
  obtain ⟨avail, st1, log, con⟩ := initializeHyperdrive st env storage outcome
  rcases h with rfl | rfl <;> by_cases hcd : avail = true ∧ st1.drive = true <;>
    cases localFile <;> simp [hcd]

/-- C4 witness: with Hyperdrive unavailable modules and a `NotFound` drive
read, the local document is returned with the local-fallback status. -/
theorem C4_fallback_on_absence_witness :
    (getTranslationsFromDrive ⟨false, false, false, false, false, false⟩
        ⟨false, false, false⟩ false InitOutcome.ok DriveGetOutcome.notFound
        (some [("en", [("hello", "hola")])])).1 = some [("en", [("hello", "hola")])] ∧
    (getTranslationsFromDrive ⟨false, false, false, false, false, false⟩
        ⟨false, false, false⟩ false InitOutcome.ok DriveGetOutcome.notFound
        (some [("en", [("hello", "hola")])])).2.1 =
      "Data source: Local file (fallback)" :=
  (C4_fallback_on_absence _ _ _ _ _ _ (Or.inl rfl)).1 _ rfl

/-- C6 witness: a fresh state with only the block-store import failing
still attempts all three imports and reports `false`. -/
theorem C6_probe_attempts_all_witness :
    (loadHyperdriveModules ⟨false, false, false, false, false, false⟩
      ⟨true, false, true⟩).2.2 = allImports ∧
    (loadHyperdriveModules ⟨false, false, false, false, false, false⟩
      ⟨true, false, true⟩).1 = (true && false && true) :=
  C6_probe_attempts_all _ _ (by simp) (by simp)

/-- `hexDigitChar` and `jsonHexVal` are mutually inverse on digits. -/
theorem jsonHexVal_hexDigitChar (n : Nat) (h : n < 16) :
    jsonHexVal (hexDigitChar n) = some n := by
  interval_cases n <;> decide

/-- A single-character catch-all step of the string-body parser. -/
theorem parseStrBody_plain (c : Char) (tail : List Char)
    (h1 : ¬c = '\"') (h2 : ¬c = '\\') :
    parseStrBody (c :: tail) = consFst c (parseStrBody tail) := by
  rw [parseStrBody.eq_def]
  simp only [if_neg h1, if_neg h2]

/-- A `\u00xx` escape step of the string-body parser. -/
theorem parseStrBody_u (a b : Char) (x y : Nat) (tail : List Char)
    (ha : jsonHexVal a = some x) (hb : jsonHexVal b = some y) :
    parseStrBody ('\\' :: 'u' :: '0' :: '0' :: a :: b :: tail) =
      consFst (Char.ofNat (16 * x + y)) (parseStrBody tail) := by
  rw [parseStrBody.eq_def]
  norm_num
  repeat rw [if_neg (by decide)]
  rw [show jsonHexVal '0' = some 0 from by decide, ha, hb]
  norm_num

/-- The string-body parser undoes `JSON.stringify`'s escaping of one
character and continues. -/
theorem parseStrBody_esc (c : Char) (tail : List Char) :
    parseStrBody (escChar c ++ tail) = consFst c (parseStrBody tail) := by
  by_cases h1 : c = '\"'
  · subst h1
    rw [show escChar '\"' = ['\\', '\"'] from by decide]
    rw [parseStrBody.eq_def]
    norm_num
    exact fun hx => absurd hx (by decide)
  by_cases h2 : c = '\\'
  · subst h2
    rw [show escChar '\\' = ['\\', '\\'] from by decide]
    rw [parseStrBody.eq_def]
    norm_num
    repeat rw [if_neg (by decide)]
  by_cases h3 : c = Char.ofNat 8
  · subst h3
    rw [show escChar (Char.ofNat 8) = ['\\', 'b'] from by decide]
    rw [parseStrBody.eq_def]
    norm_num
    repeat rw [if_neg (by decide)]
  by_cases h4 : c = '\t'
  · subst h4
    rw [show escChar '\t' = ['\\', 't'] from by decide]
    rw [parseStrBody.eq_def]
    norm_num
    repeat rw [if_neg (by decide)]
  by_cases h5 : c = '\n'
  · subst h5
    rw [show escChar '\n' = ['\\', 'n'] from by decide]
    rw [parseStrBody.eq_def]
    norm_num
    repeat rw [if_neg (by decide)]
  by_cases h6 : c = Char.ofNat 12
  · subst h6
    rw [show escChar (Char.ofNat 12) = ['\\', 'f'] from by decide]
    rw [parseStrBody.eq_def]
    norm_num
    repeat rw [if_neg (by decide)]
  by_cases h7 : c = '\r'
  · subst h7
    rw [show escChar '\r' = ['\\', 'r'] from by decide]
    rw [parseStrBody.eq_def]
    norm_num
    repeat rw [if_neg (by decide)]
  by_cases h8 : c.toNat < 32
  · have hesc : escChar c =
        ['\\', 'u', '0', '0', hexDigitChar (c.toNat / 16), hexDigitChar (c.toNat % 16)] := by
      unfold escChar
      rw [if_neg h1, if_neg h2, if_neg h3, if_neg h4, if_neg h5, if_neg h6, if_neg h7,
        if_pos h8]
    rw [hesc]
    simp only [List.cons_append, List.nil_append]
    rw [parseStrBody_u _ _ (c.toNat / 16) (c.toNat % 16) tail
      (jsonHexVal_hexDigitChar _ (by omega)) (jsonHexVal_hexDigitChar _ (by omega))]
    rw [show 16 * (c.toNat / 16) + c.toNat % 16 = c.toNat from by omega]
    rw [Char.ofNat_toNat]
  · have hesc : escChar c = [c] := by
      unfold escChar
      rw [if_neg h1, if_neg h2, if_neg h3, if_neg h4, if_neg h5, if_neg h6, if_neg h7,
        if_neg h8]
    rw [hesc]
    exact parseStrBody_plain c tail h1 h2

/-- The string-body parser undoes the escaping of a whole string body. -/
theorem parseStrBody_rt (s : List Char) (rest : List Char) :
    parseStrBody (s.flatMap escChar ++ '\"' :: rest) = some (s, rest) := by
  induction s with
  | nil =>
    rw [List.flatMap_nil, List.nil_append, parseStrBody.eq_def]
    norm_num
  | cons c s ih =>
    rw [List.flatMap_cons, List.append_assoc, parseStrBody_esc c _, ih]
    rfl

/-- The string parser undoes `encStr`. -/
theorem parseJString_rt (s : String) (rest : List Char) :
    parseJString (encStr s ++ rest) = some (s.data, rest) := by
  simp only [encStr, List.cons_append, List.append_assoc]
  rw [parseJString.eq_def]
  norm_num
  exact parseStrBody_rt s.data rest

/-- Skipping whitespace ignores a leading whitespace character. -/
theorem skipWs_cons_ws {c : Char} (cs : List Char) (h : isJsonWs c = true) :
    skipWs (c :: cs) = skipWs cs := by
  simp [skipWs, List.dropWhile_cons, h]

/-- Skipping whitespace stops at a non-whitespace character. -/
theorem skipWs_cons_not {c : Char} (cs : List Char) (h : isJsonWs c = false) :
    skipWs (c :: cs) = c :: cs := by
  simp [skipWs, List.dropWhile_cons, h]

/-- Skipping whitespace consumes an all-whitespace prefix. -/
theorem skipWs_append_ws : ∀ (pad cs : List Char), (∀ c ∈ pad, isJsonWs c = true) →
    skipWs (pad ++ cs) = skipWs cs
  | [], cs, _ => by simp
  | c :: pad, cs, h => by
    rw [List.cons_append, skipWs_cons_ws _ (h c (List.mem_cons_self _ _))]
    exact skipWs_append_ws pad cs (fun x hx => h x (List.mem_cons_of_mem _ hx))

/-- A string literal is not whitespace-led. -/
theorem skipWs_encStr (s : String) (r : List Char) :
    skipWs (encStr s ++ r) = encStr s ++ r := by
  simp only [encStr, List.cons_append]
  exact skipWs_cons_not _ (by decide)

/-- An inner object has at least as many characters as entries. -/
theorem innerEntriesChars_length : ∀ d : List (String × String),
    d.length ≤ (innerEntriesChars d).length
  | [] => by simp [innerEntriesChars]
  | [p] => by
    simp [innerEntriesChars, innerEntryChars, sp4]
  | p :: q :: ps => by
    have := innerEntriesChars_length (q :: ps)
    simp only [innerEntriesChars, List.length_append, List.length_cons] at *
    omega

/-- The top-level object has at least as many characters as entries. -/
theorem docEntriesChars_length : ∀ t : Translations,
    t.length ≤ (docEntriesChars t).length
  | [] => by simp [docEntriesChars]
  | [p] => by
    simp [docEntriesChars, docEntryChars, sp2]
  | p :: q :: ps => by
    have := docEntriesChars_length (q :: ps)
    simp only [docEntriesChars, List.length_append, List.length_cons] at *
    omega

theorem parseInnerEntries_rt : ∀ (d : Dict) (f : Nat) (pre tail rest : List Char),
    d ≠ [] → d.length ≤ f + 1 → (∀ c ∈ pre, isJsonWs c = true) →
    skipWs tail = '}' :: rest →
    parseInnerEntries (f + 1) (pre ++ (innerEntriesChars d ++ tail)) = some (d, rest)
  | [], _, _, _, _, hne, _, _, _ => absurd rfl hne
  | [(k, v)], f, pre, tail, rest, _, _, hpre, htail => by
    have hstream : pre ++ (innerEntriesChars [(k, v)] ++ tail) =
        pre ++ (sp4 ++ (encStr k ++ (':' :: ' ' :: (encStr v ++ tail)))) := by
      simp [innerEntriesChars, innerEntryChars, List.append_assoc]
    rw [hstream]
    simp only [parseInnerEntries]
    rw [skipWs_append_ws pre _ hpre]
    rw [skipWs_append_ws sp4 _ (by decide)]
    rw [skipWs_encStr k _]
    rw [parseJString_rt k _]
    dsimp only
    rw [skipWs_cons_not _ (by decide)]
    dsimp only
    rw [if_pos rfl]
    rw [skipWs_cons_ws _ (by decide), skipWs_encStr v _, parseJString_rt v _]
    dsimp only
    rw [htail]
    dsimp only
    rw [if_neg (by decide), if_pos rfl]
  | (k, v) :: q :: ps, f, pre, tail, rest, _, hlen, hpre, htail => by
    have hstream : pre ++ (innerEntriesChars ((k, v) :: q :: ps) ++ tail) =
        pre ++ (sp4 ++ (encStr k ++ (':' :: ' ' :: (encStr v ++
          (',' :: '\n' :: (innerEntriesChars (q :: ps) ++ tail)))))) := by
      simp [innerEntriesChars, innerEntryChars, List.append_assoc]
    rw [hstream]
    simp only [parseInnerEntries]
    rw [skipWs_append_ws pre _ hpre]
    rw [skipWs_append_ws sp4 _ (by decide)]
    rw [skipWs_encStr k _]
    rw [parseJString_rt k _]
    dsimp only
    rw [skipWs_cons_not _ (by decide)]
    dsimp only
    rw [if_pos rfl]
    rw [skipWs_cons_ws _ (by decide), skipWs_encStr v _, parseJString_rt v _]
    dsimp only
    rw [skipWs_cons_not _ (by decide)]
    dsimp only
    rw [if_pos rfl]
    obtain ⟨f2, rfl⟩ : ∃ f2, f = f2 + 1 := by
      refine ⟨f - 1, ?_⟩
      simp only [List.length_cons] at hlen
      omega
    rw [show ('\n' :: (innerEntriesChars (q :: ps) ++ tail) : List Char) =
      ['\n'] ++ (innerEntriesChars (q :: ps) ++ tail) from rfl]
    rw [parseInnerEntries_rt (q :: ps) f2 ['\n'] tail rest (by simp)
      (by simp only [List.length_cons] at hlen ⊢; omega) (by decide) htail]

/-- A non-empty inner object's entry block starts with indent and a quote. -/
theorem innerEntriesChars_cons_shape (p : String × String) (ps : List (String × String)) :
    ∃ z, innerEntriesChars (p :: ps) = sp4 ++ ('\"' :: z) := by
  cases ps with
  | nil =>
    exact ⟨p.1.data.flatMap escChar ++ ['\"'] ++ (':' :: ' ' :: encStr p.2),
      by simp [innerEntriesChars, innerEntryChars, encStr, List.append_assoc]⟩
  | cons q qs =>
    exact ⟨p.1.data.flatMap escChar ++ ['\"'] ++ (':' :: ' ' :: (encStr p.2 ++
      (',' :: '\n' :: innerEntriesChars (q :: qs)))),
      by simp [innerEntriesChars, innerEntryChars, encStr, List.append_assoc]⟩

/-- The inner-object parser undoes `stringifyInner`, after any leading
whitespace. -/
theorem parseInner_rt (d : Dict) (pre rest : List Char)
    (hpre : ∀ c ∈ pre, isJsonWs c = true) :
    parseInner (pre ++ (stringifyInner d ++ rest)) = some (d, rest) := by
  cases d with
  | nil =>
    rw [show stringifyInner [] = ['{', '}'] from rfl]
    unfold parseInner
    rw [skipWs_append_ws pre _ hpre]
    rw [show ((['{', '}'] : List Char) ++ rest) = '{' :: ('}' :: rest) from rfl]
    rw [skipWs_cons_not _ (by decide)]
    dsimp only
    rw [if_pos rfl]
    rw [skipWs_cons_not _ (by decide)]
    dsimp only
    rw [if_pos rfl]
  | cons p ps =>
    have hsi : pre ++ (stringifyInner (p :: ps) ++ rest) =
        pre ++ ('{' :: '\n' :: (innerEntriesChars (p :: ps) ++
          ('\n' :: ' ' :: ' ' :: '}' :: rest))) := by
      simp [stringifyInner, sp2, List.append_assoc]
    rw [hsi]
    unfold parseInner
    rw [skipWs_append_ws pre _ hpre]
    rw [skipWs_cons_not _ (by decide)]
    dsimp only
    rw [if_pos rfl]
    obtain ⟨z, hz⟩ := innerEntriesChars_cons_shape p ps
    have hskip : skipWs ('\n' :: (innerEntriesChars (p :: ps) ++
        ('\n' :: ' ' :: ' ' :: '}' :: rest))) =
        '\"' :: (z ++ ('\n' :: ' ' :: ' ' :: '}' :: rest)) := by
      rw [skipWs_cons_ws _ (by decide), hz, List.append_assoc,
        skipWs_append_ws sp4 _ (by decide)]
      rw [show (('\"' :: z : List Char) ++ ('\n' :: ' ' :: ' ' :: '}' :: rest)) =
        '\"' :: (z ++ ('\n' :: ' ' :: ' ' :: '}' :: rest)) from rfl]
      exact skipWs_cons_not _ (by decide)
    rw [hskip]
    dsimp only
    rw [if_neg (by decide)]
    rw [show ('\n' :: (innerEntriesChars (p :: ps) ++
        ('\n' :: ' ' :: ' ' :: '}' :: rest)) : List Char) =
      ['\n'] ++ (innerEntriesChars (p :: ps) ++ ('\n' :: ' ' :: ' ' :: '}' :: rest)) from rfl]
    rw [parseInnerEntries_rt (p :: ps)
      (['\n'] ++ (innerEntriesChars (p :: ps) ++ ('\n' :: ' ' :: ' ' :: '}' :: rest))).length
      ['\n'] ('\n' :: ' ' :: ' ' :: '}' :: rest) rest (by simp) ?hfuel (by decide) ?htail]
    case hfuel =>
      have := innerEntriesChars_length (p :: ps)
      simp only [List.length_cons, List.length_append, List.singleton_append] at this ⊢
      omega
    case htail =>
      rw [skipWs_cons_ws _ (by decide), skipWs_cons_ws _ (by decide),
        skipWs_cons_ws _ (by decide)]
      exact skipWs_cons_not _ (by decide)

/-- The top-level entries parser undoes `docEntriesChars`. -/
theorem parseDocEntries_rt : ∀ (t : Translations) (f : Nat) (pre tail rest : List Char),
    t ≠ [] → t.length ≤ f + 1 → (∀ c ∈ pre, isJsonWs c = true) →
    skipWs tail = '}' :: rest →
    parseDocEntries (f + 1) (pre ++ (docEntriesChars t ++ tail)) = some (t, rest)
  | [], _, _, _, _, hne, _, _, _ => absurd rfl hne
  | [(k, d)], f, pre, tail, rest, _, _, hpre, htail => by
    have hstream : pre ++ (docEntriesChars [(k, d)] ++ tail) =
        pre ++ (sp2 ++ (encStr k ++ (':' :: ' ' :: (stringifyInner d ++ tail)))) := by
      simp [docEntriesChars, docEntryChars, List.append_assoc]
    rw [hstream]
    simp only [parseDocEntries]
    rw [skipWs_append_ws pre _ hpre]
    rw [skipWs_append_ws sp2 _ (by decide)]
    rw [skipWs_encStr k _, parseJString_rt k _]
    dsimp only
    rw [skipWs_cons_not _ (by decide)]
    dsimp only
    rw [if_pos rfl]
    rw [show (' ' :: (stringifyInner d ++ tail) : List Char) =
      [' '] ++ (stringifyInner d ++ tail) from rfl]
    rw [parseInner_rt d [' '] tail (by decide)]
    dsimp only
    rw [htail]
    dsimp only
    rw [if_neg (by decide), if_pos rfl]
  | (k, d) :: q :: ps, f, pre, tail, rest, _, hlen, hpre, htail => by
    have hstream : pre ++ (docEntriesChars ((k, d) :: q :: ps) ++ tail) =
        pre ++ (sp2 ++ (encStr k ++ (':' :: ' ' :: (stringifyInner d ++
          (',' :: '\n' :: (docEntriesChars (q :: ps) ++ tail)))))) := by
      simp [docEntriesChars, docEntryChars, List.append_assoc]
    rw [hstream]
    simp only [parseDocEntries]
    rw [skipWs_append_ws pre _ hpre]
    rw [skipWs_append_ws sp2 _ (by decide)]
    rw [skipWs_encStr k _, parseJString_rt k _]
    dsimp only
    rw [skipWs_cons_not _ (by decide)]
    dsimp only
    rw [if_pos rfl]
    rw [show (' ' :: (stringifyInner d ++
        (',' :: '\n' :: (docEntriesChars (q :: ps) ++ tail))) : List Char) =
      [' '] ++ (stringifyInner d ++ (',' :: '\n' :: (docEntriesChars (q :: ps) ++ tail)))
      from rfl]
    rw [parseInner_rt d [' '] _ (by decide)]
    dsimp only
    rw [skipWs_cons_not _ (by decide)]
    dsimp only
    rw [if_pos rfl]
    obtain ⟨f2, rfl⟩ : ∃ f2, f = f2 + 1 := by
      refine ⟨f - 1, ?_⟩
      simp only [List.length_cons] at hlen
      omega
    rw [show ('\n' :: (docEntriesChars (q :: ps) ++ tail) : List Char) =
      ['\n'] ++ (docEntriesChars (q :: ps) ++ tail) from rfl]
    rw [parseDocEntries_rt (q :: ps) f2 ['\n'] tail rest (by simp)
      (by simp only [List.length_cons] at hlen ⊢; omega) (by decide) htail]

/-- A non-empty document's entry block starts with indent and a quote. -/
theorem docEntriesChars_cons_shape (p : String × Dict) (ps : List (String × Dict)) :
    ∃ z, docEntriesChars (p :: ps) = sp2 ++ ('\"' :: z) := by
  cases ps with
  | nil =>
    exact ⟨p.1.data.flatMap escChar ++ ['\"'] ++ (':' :: ' ' :: stringifyInner p.2),
      by simp [docEntriesChars, docEntryChars, encStr, List.append_assoc]⟩
  | cons q qs =>
    exact ⟨p.1.data.flatMap escChar ++ ['\"'] ++ (':' :: ' ' :: (stringifyInner p.2 ++
      (',' :: '\n' :: docEntriesChars (q :: qs)))),
      by simp [docEntriesChars, docEntryChars, encStr, List.append_assoc]⟩

/-- The top-level parser undoes `stringifyDoc`. -/
theorem parseDocTop_rt (t : Translations) (rest : List Char) :
    parseDocTop (stringifyDoc t ++ rest) = some (t, rest) := by
  cases t with
  | nil =>
    unfold parseDocTop
    rw [show (stringifyDoc [] ++ rest : List Char) = '{' :: ('}' :: rest) from rfl]
    rw [skipWs_cons_not _ (by decide)]
    dsimp only
    rw [if_pos rfl]
    rw [skipWs_cons_not _ (by decide)]
    dsimp only
    rw [if_pos rfl]
  | cons p ps =>
    have hsd : stringifyDoc (p :: ps) ++ rest =
        '{' :: '\n' :: (docEntriesChars (p :: ps) ++ ('\n' :: '}' :: rest)) := by
      simp [stringifyDoc, List.append_assoc]
    rw [hsd]
    unfold parseDocTop
    rw [skipWs_cons_not _ (by decide)]
    dsimp only
    rw [if_pos rfl]
    obtain ⟨z, hz⟩ := docEntriesChars_cons_shape p ps
    have hskip : skipWs ('\n' :: (docEntriesChars (p :: ps) ++ ('\n' :: '}' :: rest))) =
        '\"' :: (z ++ ('\n' :: '}' :: rest)) := by
      rw [skipWs_cons_ws _ (by decide), hz, List.append_assoc,
        skipWs_append_ws sp2 _ (by decide)]
      rw [show (('\"' :: z : List Char) ++ ('\n' :: '}' :: rest)) =
        '\"' :: (z ++ ('\n' :: '}' :: rest)) from rfl]
      exact skipWs_cons_not _ (by decide)
    rw [hskip]
    dsimp only
    rw [if_neg (by decide)]
    rw [show ('\n' :: (docEntriesChars (p :: ps) ++ ('\n' :: '}' :: rest)) : List Char) =
      ['\n'] ++ (docEntriesChars (p :: ps) ++ ('\n' :: '}' :: rest)) from rfl]
    rw [parseDocEntries_rt (p :: ps)
      (['\n'] ++ (docEntriesChars (p :: ps) ++ ('\n' :: '}' :: rest))).length
      ['\n'] ('\n' :: '}' :: rest) rest (by simp) ?hfuel (by decide) ?htail]
    case hfuel =>
      have := docEntriesChars_length (p :: ps)
      simp only [List.length_cons, List.length_append, List.singleton_append] at this ⊢
      omega
    case htail =>
      rw [skipWs_cons_ws _ (by decide)]
      exact skipWs_cons_not _ (by decide)

/-- `JSON.parse` undoes `JSON.stringify(·, null, 2)` on every translations
document. -/
theorem parseTranslationsChars_rt (t : Translations) :
    parseTranslationsChars (stringifyDoc t) = some t := by
  have h := parseDocTop_rt t []
  rw [List.append_nil] at h
  unfold parseTranslationsChars
  rw [h]
  rfl

/-- C5: round-trip through the drive.  For every translations value and
every prior drive content, the buffer written by the
`loadTranslationsIntoDrive` pipeline (`JSON.stringify(·, null, 2)`, encode,
`drive.put` under `"translations.json"`) is read back byte-identical by
`drive.get`, and the `getTranslationsFromDrive` read pipeline (get, decode,
`JSON.parse`) returns a value structurally equal to the one written. -/
theorem C5_drive_roundtrip (t : Translations) (d : DriveStore) :
    driveGet (writeTranslations d t) "translations.json" = some (stringifyDoc t) ∧
    readTranslations (writeTranslations d t) = some t := by
  have hget : driveGet (writeTranslations d t) "translations.json" =
      some (stringifyDoc t) := by
    simp [driveGet, writeTranslations, drivePut, alookup]
  refine ⟨hget, ?_⟩
  unfold readTranslations
  rw [hget]
  exact parseTranslationsChars_rt t
